import Mathlib

/-!
Verification of the LoD CDLOD terrain renderer core against its
natural-language specification.

The development shallowly embeds the relevant C++ code:
* `GridMesh` (src/engine/collision/plane.h, second part of the file):
  `indexOf`, `setupPositions` (vertex positions and the index buffer),
  `drawSubquad` and `render`;
* `HeightMap::heightAt` (src/engine/height_map.h), with doubles modelled
  as real numbers;
* `HeightMapInterface::getMinMaxOfArea` (declared in
  src/engine/height_map.h; its implementation is not part of the sources,
  so it is modelled from the spec);
* `Shadow` (include/shadow.hpp): constructor, `begin`, `push`, `getDepth`;
* the GL bind-state effects of `Terrain::render` (src/terrain.cc) and
  `GridMesh::render`.
-/

namespace GridMesh

/-- `GLubyte dim2 = dimension_/2;` -/
def dim2 (dim : Nat) : Nat := dim / 2

/-- `int sub_quad_vertex_cnt = (dim2+1)*(dim2+1);` — the number of
vertices of one quadrant block. -/
def subQuadVertexCnt (dim : Nat) : Nat := (dim2 dim + 1) * (dim2 dim + 1)

/-- `GLushort GridMesh::indexOf(int sub_quad, int x, int y)`.  The result
is truncated to `GLushort` (mod 2^16). -/
def indexOf (dim sub_quad x y : Nat) : Nat :=
  (sub_quad * subQuadVertexCnt dim + (dim2 dim + 1) * y + x) % 65536

/-- The `(sub_quad, ysign, xsign)` triples in the order the two nested
sign loops of `setupPositions` visit them (`ysign` outer, `xsign` inner,
`sub_quad` incremented each inner iteration). -/
def subquadSigns : List (Nat × Int × Int) :=
  [(0, -1, -1), (1, -1, 1), (2, 1, -1), (3, 1, 1)]

/-- The vertex positions one quadrant block of `setupPositions` pushes:
`positions.push_back(svec2(xsign*x, ysign*y))` for `y` then `x` in
`0..dim2`. -/
def quadPositions (dim : Nat) (ysign xsign : Int) : List (Int × Int) :=
  (List.range (dim2 dim + 1)).flatMap fun y =>
    (List.range (dim2 dim + 1)).map fun x : Nat => (xsign * (x : Int), ysign * (y : Int))

/-- The whole `positions` vector built by `setupPositions`:
`for ysign in {-1,1}: for xsign in {-1,1}: ...`. -/
def gridPositions (dim : Nat) : List (Int × Int) :=
  ([-1, 1] : List Int).flatMap fun ysign =>
    ([-1, 1] : List Int).flatMap fun xsign =>
      quadPositions dim ysign xsign

/-- The position stored in the vertex buffer at index `v` (the buffer is
`positions_`, uploaded from the `positions` vector). -/
def posAt (dim v : Nat) : Int × Int := (gridPositions dim).getD v (0, 0)

/-- The six indices `setupPositions` pushes for one grid cell `(x, y)` of
one quadrant, including the winding flip on `xsign * ysign`. -/
def cellIndices (dim sub_quad : Nat) (ysign xsign : Int) (x y : Nat) : List Nat :=
  if xsign * ysign > 0 then
    [indexOf dim sub_quad x y, indexOf dim sub_quad x (y+1), indexOf dim sub_quad (x+1) y,
     indexOf dim sub_quad (x+1) y, indexOf dim sub_quad x (y+1), indexOf dim sub_quad (x+1) (y+1)]
  else
    [indexOf dim sub_quad x y, indexOf dim sub_quad (x+1) (y+1), indexOf dim sub_quad x (y+1),
     indexOf dim sub_quad x y, indexOf dim sub_quad (x+1) y, indexOf dim sub_quad (x+1) (y+1)]

/-- The same six indices grouped as the two triangles they form (each
triangle is three consecutive indices of `cellIndices`). -/
def cellTriangles (dim sub_quad : Nat) (ysign xsign : Int) (x y : Nat) :
    List (Nat × Nat × Nat) :=
  if xsign * ysign > 0 then
    [(indexOf dim sub_quad x y, indexOf dim sub_quad x (y+1), indexOf dim sub_quad (x+1) y),
     (indexOf dim sub_quad (x+1) y, indexOf dim sub_quad x (y+1), indexOf dim sub_quad (x+1) (y+1))]
  else
    [(indexOf dim sub_quad x y, indexOf dim sub_quad (x+1) (y+1), indexOf dim sub_quad x (y+1)),
     (indexOf dim sub_quad x y, indexOf dim sub_quad (x+1) y, indexOf dim sub_quad (x+1) (y+1))]

/-- All indices pushed for one quadrant (`y` then `x` in `0..dim2-1`). -/
def quadIndices (dim sub_quad : Nat) (ysign xsign : Int) : List Nat :=
  (List.range (dim2 dim)).flatMap fun y =>
    (List.range (dim2 dim)).flatMap fun x =>
      cellIndices dim sub_quad ysign xsign x y

/-- The triangles of one quadrant. -/
def quadTriangles (dim sub_quad : Nat) (ysign xsign : Int) : List (Nat × Nat × Nat) :=
  (List.range (dim2 dim)).flatMap fun y =>
    (List.range (dim2 dim)).flatMap fun x =>
      cellTriangles dim sub_quad ysign xsign x y

/-- The whole `indices` vector built by `setupPositions`. -/
def gridIndices (dim : Nat) : List Nat :=
  subquadSigns.flatMap fun s => quadIndices dim s.1 s.2.1 s.2.2

/-- All triangles of the index buffer. -/
def gridTriangles (dim : Nat) : List (Nat × Nat × Nat) :=
  subquadSigns.flatMap fun s => quadTriangles dim s.1 s.2.1 s.2.2

/-- `subquad_index_start_[sub_quad]` — `indices.size()` at the moment
quadrant `sub_quad` starts, i.e. the length of everything pushed for the
earlier quadrants. -/
def subquadIndexStart (dim q : Nat) : Nat :=
  ((subquadSigns.take q).flatMap fun s => quadIndices dim s.1 s.2.1 s.2.2).length

/-- `const int sub_quad_size = 3 * dimension_ * dimension_ / 2;`
in `drawSubquad`. -/
def subQuadSize (dim : Nat) : Nat := 3 * dim * dim / 2

/-- The contiguous index-buffer range drawn by
`drawSubquad(quad_num, start_quad_idx)`: `quad_num * sub_quad_size`
indices starting at `subquad_index_start_[start_quad_idx]`. -/
def drawSubquadRange (dim quad_num start_quad_idx : Nat) : Finset Nat :=
  Finset.Ico (subquadIndexStart dim start_quad_idx)
    (subquadIndexStart dim start_quad_idx + quad_num * subQuadSize dim)

/-- The `(quad_num, start_quad_idx)` arguments of the `drawSubquad` calls
`GridMesh::render(tl, tr, bl, br)` makes, following its decision tree
literally (`_0 = bl, _1 = br, _2 = tl, _3 = tr`). -/
def renderCalls (tl tr bl br : Bool) : List (Nat × Nat) :=
  let b0 := bl
  let b1 := br
  let b2 := tl
  let b3 := tr
  if b3 then
    if b2 then
      if b1 then
        if b0 then [(4, 0)] else [(3, 1)]
      else
        if b0 then [(1, 0), (2, 2)] else [(2, 2)]
    else
      if b1 then
        if b0 then [(2, 0), (1, 3)] else [(1, 1), (1, 3)]
      else
        if b0 then [(1, 0), (1, 3)] else [(1, 3)]
  else
    if b2 then
      if b1 then
        if b0 then [(3, 0)] else [(2, 1)]
      else
        if b0 then [(1, 0), (1, 2)] else [(1, 2)]
    else
      if b1 then
        if b0 then [(2, 0)] else [(1, 1)]
      else
        if b0 then [(1, 0)] else []

/-- The set of index-buffer positions drawn by a sequence of
`drawSubquad` calls. -/
def coveredIndices (dim : Nat) (calls : List (Nat × Nat)) : Finset Nat :=
  calls.foldr (fun c acc => drawSubquadRange dim c.1 c.2 ∪ acc) ∅

/-- The contiguous index range belonging to quadrant `q` (length
`6*(dim/2)^2`, starting at `subquad_index_start_[q]`). -/
def quadrantRange (dim q : Nat) : Finset Nat :=
  Finset.Ico (subquadIndexStart dim q)
    (subquadIndexStart dim q + 6 * (dim2 dim * dim2 dim))

/-- The union of the quadrant ranges whose boolean is requested, with the
quadrant numbering of `render` (`0 = bl, 1 = br, 2 = tl, 3 = tr`). -/
def requestedIndices (dim : Nat) (tl tr bl br : Bool) : Finset Nat :=
  (if bl then quadrantRange dim 0 else ∅) ∪
  (if br then quadrantRange dim 1 else ∅) ∪
  (if tl then quadrantRange dim 2 else ∅) ∪
  (if tr then quadrantRange dim 3 else ∅)

/-- Twice the signed area of a triangle, from its stored 2D positions. -/
def signedDoubleArea (p0 p1 p2 : Int × Int) : Int :=
  (p1.1 - p0.1) * (p2.2 - p0.2) - (p2.1 - p0.1) * (p1.2 - p0.2)

end GridMesh

namespace HeightMapR

/-- `glm::mix(x, y, a) = x * (1 - a) + y * a`, over the reals. -/
noncomputable def mix (x y a : ℝ) : ℝ := x * (1 - a) + y * a

/-- `HeightMap::heightAt(int x, int y)` — the plain texel fetch
`tex_(x, y)[0]`, with the texel raster abstracted as `t`. -/
def heightAtI (t : ℤ → ℤ → ℝ) (x y : ℤ) : ℝ := t x y

/-- `HeightMap::heightAt(double x, double y)` — bilinear interpolation of
the four surrounding texels, with doubles modelled as reals:
`fx = floor(x), cx = ceil(x), fy = floor(y), cy = ceil(y)`,
`fh = mix(t(fx,fy), t(cx,fy), x-fx)`, `ch = mix(t(fx,cy), t(cx,cy), x-fx)`,
result `mix(fh, ch, y-fy)`. -/
noncomputable def heightAtD (t : ℤ → ℤ → ℝ) (x y : ℝ) : ℝ :=
  mix (mix (t ⌊x⌋ ⌊y⌋) (t ⌈x⌉ ⌊y⌋) (x - ⌊x⌋))
      (mix (t ⌊x⌋ ⌈y⌉) (t ⌈x⌉ ⌈y⌉) (x - ⌊x⌋))
      (y - ⌊y⌋)

/-- One row of the bilinear fetch: `mix(r(floor x), r(ceil x), x - floor x)`. -/
noncomputable def mixRow (r : ℤ → ℝ) (x : ℝ) : ℝ := mix (r ⌊x⌋) (r ⌈x⌉) (x - ⌊x⌋)

end HeightMapR

namespace HeightMapQ

/-- An abstract height raster: `w × h` texels and an integer height per
texel (`HeightMapInterface`; heights are `double`s read from the texture,
modelled here on integer data, which `HeightMap` supports via the
`integer` flag). -/
structure HeightMapData where
  w : Nat
  h : Nat
  height : Int → Int → Int

/-- `valid(x, y)`: the coordinates lie inside `[0, w) × [0, h)`. -/
def HeightMapData.valid (hm : HeightMapData) (x y : Int) : Bool :=
  decide (0 ≤ x ∧ x < (hm.w : Int) ∧ 0 ≤ y ∧ y < (hm.h : Int))

/-- The valid integer sample points of the centered rectangle
`[x - w/2, x + w/2] × [y - h/2, y + h/2]` (C++ truncating division). -/
def areaSamples (hm : HeightMapData) (x y w h : Int) : Finset (Int × Int) :=
  (Finset.Icc (x - Int.tdiv w 2) (x + Int.tdiv w 2) ×ˢ
     Finset.Icc (y - Int.tdiv h 2) (y + Int.tdiv h 2)).filter
    fun p => hm.valid p.1 p.2 = true

/-- Modelled from the spec: the implementation of
`HeightMapInterface::getMinMaxOfArea` is not among the sources (only its
declaration and doc comment in src/engine/height_map.h are).  Per the
spec, it "returns dvec2{min, max} of area between (x-w/2, y-h/2) and
(x+w/2, y+h/2)", the extrema being tight over the valid samples of that
rectangle, "and returns {0, 0} if the area requested doesn't contain a
single valid value". -/
def getMinMaxOfArea (hm : HeightMapData) (x y w h : Int) : Int × Int :=
  if hs : (areaSamples hm x y w h).Nonempty then
    ((areaSamples hm x y w h).inf' hs fun p => hm.height p.1 p.2,
     (areaSamples hm x y w h).sup' hs fun p => hm.height p.1 p.2)
  else (0, 0)

end HeightMapQ

namespace ShadowM

/-- The `Shadow` object state (include/shadow.hpp): the cascade matrix
array `cp_matrices_`, the depth counters, the shadow-map size and the
framebuffer currently bound (`fbo_[i].bind()`); matrix entries are kept
abstract in `M`. -/
structure ShadowState (M : Type) where
  cp_matrices : List M
  size : Nat
  curr_depth : Nat
  max_depth : Nat
  bound_fbo : Option Nat

/-- The constructor `Shadow(shadowMapSize, depth)`:
`fbo_(depth), cp_matrices_(depth), size_(shadowMapSize), curr_depth_(0),
max_depth_(depth)`; `m0` is the default-constructed matrix.  The
constructor ends with `Framebuffer::Unbind()`. -/
def mkShadow (M : Type) (shadowMapSize depth : Nat) (m0 : M) : ShadowState M :=
  { cp_matrices := List.replicate depth m0
    size := shadowMapSize
    curr_depth := 0
    max_depth := depth
    bound_fbo := none }

/-- `Shadow::begin()`: binds `fbo_[0]`, resets `curr_depth_` to 0 (the
viewport/clear calls carry no object state). -/
def beginShadow {M : Type} (s : ShadowState M) : ShadowState M :=
  { s with curr_depth := 0, bound_fbo := some 0 }

/-- `Shadow::push()`: if `curr_depth_ + 1 < max_depth_`, binds
`fbo_[++curr_depth_]` (incrementing `curr_depth_`); otherwise throws
`std::overflow_error("ShadowMap stack overflow.")` without touching any
member. -/
def pushShadow {M : Type} (s : ShadowState M) : Except String (ShadowState M) :=
  if s.curr_depth + 1 < s.max_depth then
    Except.ok { s with curr_depth := s.curr_depth + 1,
                       bound_fbo := some (s.curr_depth + 1) }
  else
    Except.error "ShadowMap stack overflow."

/-- The state of the `Shadow` object after a `push()` call, whether or
not it threw: on the throwing path no member was written, so the object
is unchanged. -/
def afterPush {M : Type} (s : ShadowState M) : ShadowState M :=
  match pushShadow s with
  | Except.ok t => t
  | Except.error _ => s

/-- `Shadow::getDepth()`. -/
def getDepth {M : Type} (s : ShadowState M) : Nat := s.curr_depth

/-- `Shadow::shadowCPs()`. -/
def shadowCPs {M : Type} (s : ShadowState M) : List M := s.cp_matrices

/-- The `Shadow` class invariant claimed by C9: `curr_depth_` is a valid
index bound and the matrix array has `max_depth_` entries. -/
def ShadowInv {M : Type} (s : ShadowState M) : Prop :=
  s.curr_depth < s.max_depth ∧ s.cp_matrices.length = s.max_depth

end ShadowM

namespace RenderTrace

/-- The uniforms `Terrain::render` writes. -/
inductive UniformTag where
  | uCameraMatrix
  | uProjectionMatrix
  | uModelMatrix
  | uShadowCP (i : Nat)
  | uNumUsedShadowMaps
  | uShadowAtlasSize
deriving DecidableEq

/-- GL-facing events of the render pass that touch shared bind state
(texture units are identified by their unit number, as in
`grassMaps_[0].bind(2)`). -/
inductive GLEvent where
  | useProgram
  | setUniform (u : UniformTag)
  | bindTexture (unit : Nat)
  | unbindTexture (unit : Nat)
  | bindVao
  | unbindVao
  | drawElements (quadNum startQuadIdx : Nat)
deriving DecidableEq

/-- The event trace of `GridMesh::render(tl, tr, bl, br)`:
`vao_.bind()`, the `drawSubquad` calls of its decision tree,
`vao_.unbind()`. -/
def gridMeshRenderEvents (tl tr bl br : Bool) : List GLEvent :=
  [GLEvent.bindVao] ++
  (GridMesh.renderCalls tl tr bl br).map (fun c => GLEvent.drawElements c.1 c.2) ++
  [GLEvent.unbindVao]

/-- Modelled from the spec: `TerrainMesh::render` (invoked as
`mesh_.render(cam)` by `Terrain::render`) is not among the sources.  Per
the spec, the node renderer "binds the chosen Grid Mesh sub-pattern, sets
per-node transform/scale/morph uniforms, and issues draw calls" — i.e. it
performs one `GridMesh::render` per selected node, with that node's
quadrant booleans. -/
def terrainMeshRenderEvents (patterns : List (Bool × Bool × Bool × Bool)) : List GLEvent :=
  patterns.flatMap fun p => gridMeshRenderEvents p.1 p.2.1 p.2.2.1 p.2.2.2

/-- The event trace of `Terrain::render()` (src/terrain.cc): program use,
matrix uniforms, the shadow uniforms when a shadow collaborator exists
(`shadowDepth = some d` with `d = shadow->getDepth()`), the grass maps on
units 2 and 3, the normal map on unit 4, the shadow texture on unit 5
when present, the mesh render, then the unbinds in reverse order. -/
def terrainRenderEvents (shadowDepth : Option Nat)
    (patterns : List (Bool × Bool × Bool × Bool)) : List GLEvent :=
  [GLEvent.useProgram,
   GLEvent.setUniform UniformTag.uCameraMatrix,
   GLEvent.setUniform UniformTag.uProjectionMatrix,
   GLEvent.setUniform UniformTag.uModelMatrix] ++
  (match shadowDepth with
   | some d =>
     (List.range d).map (fun i => GLEvent.setUniform (UniformTag.uShadowCP i)) ++
     [GLEvent.setUniform UniformTag.uNumUsedShadowMaps,
      GLEvent.setUniform UniformTag.uShadowAtlasSize]
   | none => []) ++
  [GLEvent.bindTexture 2, GLEvent.bindTexture 3, GLEvent.bindTexture 4] ++
  (match shadowDepth with
   | some _ => [GLEvent.bindTexture 5]
   | none => []) ++
  terrainMeshRenderEvents patterns ++
  (match shadowDepth with
   | some _ => [GLEvent.unbindTexture 5]
   | none => []) ++
  [GLEvent.unbindTexture 4, GLEvent.unbindTexture 3, GLEvent.unbindTexture 2]

/-- The graphics context's shared bind state: which texture units hold a
binding and whether a vertex array object is bound. -/
structure BindState where
  units : Nat → Bool
  vaoBound : Bool

/-- How one event changes the bind state. -/
def applyEvent (s : BindState) : GLEvent → BindState
  | GLEvent.bindTexture u => { s with units := fun v => if v = u then true else s.units v }
  | GLEvent.unbindTexture u => { s with units := fun v => if v = u then false else s.units v }
  | GLEvent.bindVao => { s with vaoBound := true }
  | GLEvent.unbindVao => { s with vaoBound := false }
  | _ => s

/-- Folding a whole event trace over the bind state. -/
def applyEvents (s : BindState) (l : List GLEvent) : BindState :=
  l.foldl applyEvent s

/-- Events that do not touch any texture unit. -/
def noTexEvent : GLEvent → Prop
  | GLEvent.bindTexture _ => False
  | GLEvent.unbindTexture _ => False
  | _ => True

end RenderTrace

/-! ## Helper lemmas -/

namespace GridMesh

theorem length_flatMap_const {α β : Type} (l : List α) (f : α → List β) (m : Nat)
    (h : ∀ a ∈ l, (f a).length = m) : (l.flatMap f).length = l.length * m := by
  induction l with
  | nil => simp
  | cons a t ih =>
    simp only [List.flatMap_cons, List.length_append, List.length_cons]
    rw [h a (by simp), ih (fun b hb => h b (by simp [hb]))]
    ring

theorem getElem?_flatMap_const {α β : Type} (l : List α) (f : α → List β) (m i j : Nat)
    (h : ∀ a ∈ l, (f a).length = m) (hi : i < l.length) (hj : j < m) :
    (l.flatMap f)[m * i + j]? = (f (l.get ⟨i, hi⟩))[j]? := by
  induction l generalizing i with
  | nil => simp at hi
  | cons a t ih =>
    rw [List.flatMap_cons]
    cases i with
    | zero =>
      have hlen : m * 0 + j < (f a).length := by
        rw [h a (by simp)]; omega
      rw [List.getElem?_append_left hlen]
      simp
    | succ i =>
      have hfa : (f a).length = m := h a (by simp)
      have hidx : m * (i + 1) + j = (f a).length + (m * i + j) := by
        rw [hfa]; ring
      rw [hidx, List.getElem?_append_right (by omega)]
      have hsub : (f a).length + (m * i + j) - (f a).length = m * i + j := by omega
      rw [hsub, ih i (fun b hb => h b (List.mem_cons_of_mem a hb)) (by simpa using hi)]
      rfl

theorem cellIndices_length (dim sub_quad : Nat) (ysign xsign : Int) (x y : Nat) :
    (cellIndices dim sub_quad ysign xsign x y).length = 6 := by
  unfold cellIndices
  split <;> rfl

theorem quadIndices_length (dim sub_quad : Nat) (ysign xsign : Int) :
    (quadIndices dim sub_quad ysign xsign).length = 6 * (dim2 dim * dim2 dim) := by
  unfold quadIndices
  have hInner : ∀ a ∈ List.range (dim2 dim),
      ((List.range (dim2 dim)).flatMap fun x =>
        cellIndices dim sub_quad ysign xsign x a).length = dim2 dim * 6 := by
    intro a _
    rw [length_flatMap_const _ _ 6 (fun b _ => cellIndices_length ..)]
    simp [List.length_range]
  rw [length_flatMap_const _ _ (dim2 dim * 6) hInner]
  simp [List.length_range]
  ring

theorem subquadIndexStart_eq (dim : Nat) (q : Nat) (hq : q ≤ 4) :
    subquadIndexStart dim q = q * (6 * (dim2 dim * dim2 dim)) := by
  interval_cases q <;>
    simp [subquadIndexStart, subquadSigns, quadIndices_length] <;> ring

theorem subQuadSize_even (dim : Nat) (h : dim % 2 = 0) :
    subQuadSize dim = 6 * (dim2 dim * dim2 dim) := by
  obtain ⟨k, hk⟩ : ∃ k, dim = 2 * k := ⟨dim / 2, by omega⟩
  subst hk
  have h1 : dim2 (2 * k) = k := by unfold dim2; omega
  have h2 : 3 * (2 * k) * (2 * k) = 2 * (6 * (k * k)) := by ring
  unfold subQuadSize
  rw [h1, h2, Nat.mul_div_cancel_left _ (by norm_num)]

theorem disjoint_Ico_of (a b c d : Nat) (h : b ≤ c ∨ d ≤ a) :
    Disjoint (Finset.Ico a b) (Finset.Ico c d) := by
  rw [Finset.disjoint_left]
  intro x hx hy
  simp only [Finset.mem_Ico] at hx hy
  omega

end GridMesh

/-! ## C2 -/

/-- **C2.** For each of the 16 boolean quadrant combinations passed to
`GridMesh::render`, at most 2 `drawSubquad` (draw) calls are issued, and
the all-false combination issues exactly 0. -/
theorem gridMesh_render_at_most_two_draw_calls :
    (∀ tl tr bl br : Bool, (GridMesh.renderCalls tl tr bl br).length ≤ 2) ∧
      GridMesh.renderCalls false false false false = [] := by
  constructor
  · intro tl tr bl br
    cases tl <;> cases tr <;> cases bl <;> cases br <;> decide
  · decide

/-! ## C1 -/

set_option maxHeartbeats 2000000 in
/-- **C1.** For every even dimension and every combination of the four
booleans, `GridMesh::render` draws exactly the set of requested
quadrants: the union of the index ranges passed to `drawSubquad` equals
the union of the per-quadrant contiguous ranges (each of length
`6*(dim/2)^2`, starting at `subquad_index_start_[q]`) of the quadrants
whose boolean is true, and the drawn ranges are pairwise disjoint (no
quadrant drawn twice). -/
theorem gridMesh_render_draws_exactly_requested (dim : Nat) (heven : dim % 2 = 0)
    (tl tr bl br : Bool) :
    GridMesh.coveredIndices dim (GridMesh.renderCalls tl tr bl br)
        = GridMesh.requestedIndices dim tl tr bl br ∧
      (GridMesh.renderCalls tl tr bl br).Pairwise
        (fun c c2 => Disjoint (GridMesh.drawSubquadRange dim c.1 c.2)
          (GridMesh.drawSubquadRange dim c2.1 c2.2)) := by
  have hS := GridMesh.subQuadSize_even dim heven
  have h0 := GridMesh.subquadIndexStart_eq dim 0 (by norm_num)
  have h1 := GridMesh.subquadIndexStart_eq dim 1 (by norm_num)
  have h2 := GridMesh.subquadIndexStart_eq dim 2 (by norm_num)
  have h3 := GridMesh.subquadIndexStart_eq dim 3 (by norm_num)
  cases tl <;> cases tr <;> cases bl <;> cases br <;>
    refine ⟨by
      ext a
      simp [GridMesh.coveredIndices, GridMesh.renderCalls, GridMesh.requestedIndices,
        GridMesh.quadrantRange, GridMesh.drawSubquadRange, hS, h0, h1, h2, h3,
        Finset.mem_Ico]
      all_goals omega, by
      simp only [GridMesh.renderCalls, GridMesh.drawSubquadRange, hS, h0, h1, h2, h3]
      simp [List.pairwise_cons] <;>
        exact GridMesh.disjoint_Ico_of _ _ _ _ (by omega)⟩

/-- **C1 witness.** The theorem applied at `dim = 4` with quadrants
`tl, br` requested. -/
theorem gridMesh_render_draws_exactly_requested_witness :
    GridMesh.coveredIndices 4 (GridMesh.renderCalls true false false true)
        = GridMesh.requestedIndices 4 true false false true ∧
      (GridMesh.renderCalls true false false true).Pairwise
        (fun c c2 => Disjoint (GridMesh.drawSubquadRange 4 c.1 c.2)
          (GridMesh.drawSubquadRange 4 c2.1 c2.2)) :=
  gridMesh_render_draws_exactly_requested 4 (by decide) true false false true

/-! ## Vertex-buffer lookup lemmas -/

namespace GridMesh

theorem rowIndex_lt (dim x y : Nat) (hx : x ≤ dim2 dim) (hy : y ≤ dim2 dim) :
    (dim2 dim + 1) * y + x < subQuadVertexCnt dim := by
  unfold subQuadVertexCnt
  have h1 : (dim2 dim + 1) * (y + 1) ≤ (dim2 dim + 1) * (dim2 dim + 1) :=
    Nat.mul_le_mul_left _ (by omega)
  have h2 : (dim2 dim + 1) * (y + 1) = (dim2 dim + 1) * y + (dim2 dim + 1) := by ring
  omega

theorem quadPositions_length (dim : Nat) (ys xs : Int) :
    (quadPositions dim ys xs).length = subQuadVertexCnt dim := by
  have hlen : ∀ a ∈ List.range (dim2 dim + 1),
      ((List.range (dim2 dim + 1)).map fun n : Nat => (xs * (n : Int), ys * (a : Int))).length
        = dim2 dim + 1 := fun a _ => by simp
  unfold quadPositions subQuadVertexCnt
  rw [length_flatMap_const _ _ (dim2 dim + 1) hlen]
  simp

theorem quadPositions_getElem (dim : Nat) (ys xs : Int) (x y : Nat)
    (hx : x ≤ dim2 dim) (hy : y ≤ dim2 dim) :
    (quadPositions dim ys xs)[(dim2 dim + 1) * y + x]? = some (xs * x, ys * y) := by
  have hylt : y < (List.range (dim2 dim + 1)).length := by simp; omega
  have hlen : ∀ a ∈ List.range (dim2 dim + 1),
      ((List.range (dim2 dim + 1)).map fun n : Nat => (xs * (n : Int), ys * (a : Int))).length
        = dim2 dim + 1 := fun a _ => by simp
  unfold quadPositions
  rw [getElem?_flatMap_const _ _ (dim2 dim + 1) y x hlen hylt (by omega)]
  have hget : (List.range (dim2 dim + 1)).get ⟨y, hylt⟩ = y := by simp
  rw [hget, List.getElem?_map, List.getElem?_range (show x < dim2 dim + 1 by omega)]
  rfl

theorem gridPositions_eq_flatMap (dim : Nat) :
    gridPositions dim = subquadSigns.flatMap fun s => quadPositions dim s.2.1 s.2.2 := by
  simp [gridPositions, subquadSigns]

theorem gridPositions_getElem (dim : Nat) (q : Nat) (ys xs : Int)
    (hq : (q, ys, xs) ∈ subquadSigns) (x y : Nat) (hx : x ≤ dim2 dim) (hy : y ≤ dim2 dim) :
    (gridPositions dim)[q * subQuadVertexCnt dim + ((dim2 dim + 1) * y + x)]?
      = some (xs * x, ys * y) := by
  rw [gridPositions_eq_flatMap]
  have hidx : q * subQuadVertexCnt dim + ((dim2 dim + 1) * y + x)
      = subQuadVertexCnt dim * q + ((dim2 dim + 1) * y + x) := by ring
  rw [hidx]
  have hr : (dim2 dim + 1) * y + x < subQuadVertexCnt dim := rowIndex_lt dim x y hx hy
  have hlen : ∀ a ∈ subquadSigns, (quadPositions dim a.2.1 a.2.2).length
      = subQuadVertexCnt dim := fun a _ => quadPositions_length dim a.2.1 a.2.2
  fin_cases hq <;>
    rw [getElem?_flatMap_const subquadSigns _ (subQuadVertexCnt dim) _ _ hlen
      (by simp [subquadSigns]) hr] <;>
    exact quadPositions_getElem dim _ _ x y hx hy

theorem indexOf_block_bounds (dim q x y : Nat) (hq : q ≤ 3) (hx : x ≤ dim2 dim)
    (hy : y ≤ dim2 dim) (h16 : 4 * subQuadVertexCnt dim ≤ 65536) :
    q * subQuadVertexCnt dim ≤ indexOf dim q x y ∧
      indexOf dim q x y < (q + 1) * subQuadVertexCnt dim ∧
      indexOf dim q x y = q * subQuadVertexCnt dim + ((dim2 dim + 1) * y + x) := by
  have hr : (dim2 dim + 1) * y + x < subQuadVertexCnt dim := rowIndex_lt dim x y hx hy
  have hq1 : (q + 1) * subQuadVertexCnt dim ≤ 4 * subQuadVertexCnt dim :=
    Nat.mul_le_mul_right _ (by omega)
  have hsplit : (q + 1) * subQuadVertexCnt dim
      = q * subQuadVertexCnt dim + subQuadVertexCnt dim := by ring
  unfold indexOf
  rw [Nat.mod_eq_of_lt (by omega)]
  omega

theorem posAt_indexOf (dim : Nat) (q : Nat) (ys xs : Int) (hq : (q, ys, xs) ∈ subquadSigns)
    (x y : Nat) (hx : x ≤ dim2 dim) (hy : y ≤ dim2 dim) (hdim : dim < 256) :
    posAt dim (indexOf dim q x y) = (xs * x, ys * y) := by
  have hq3 : q ≤ 3 := by fin_cases hq <;> decide
  have hk : dim2 dim + 1 ≤ 128 := by unfold dim2; omega
  have hV : subQuadVertexCnt dim ≤ 16384 := by
    unfold subQuadVertexCnt
    calc (dim2 dim + 1) * (dim2 dim + 1) ≤ 128 * 128 := Nat.mul_le_mul hk hk
    _ = 16384 := by norm_num
  obtain ⟨_, _, hval⟩ := indexOf_block_bounds dim q x y hq3 hx hy (by omega)
  rw [posAt, hval, List.getD_eq_getElem?_getD,
    gridPositions_getElem dim q ys xs hq x y hx hy]
  rfl

theorem cellTriangles_area (dim q : Nat) (ys xs : Int) (hq : (q, ys, xs) ∈ subquadSigns)
    (x y : Nat) (hx : x + 1 ≤ dim2 dim) (hy : y + 1 ≤ dim2 dim) (hdim : dim < 256) :
    ∀ t ∈ cellTriangles dim q ys xs x y,
      signedDoubleArea (posAt dim t.1) (posAt dim t.2.1) (posAt dim t.2.2) = -1 := by
  have p00 := posAt_indexOf dim q ys xs hq x y (by omega) (by omega) hdim
  have p01 := posAt_indexOf dim q ys xs hq x (y+1) (by omega) (by omega) hdim
  have p10 := posAt_indexOf dim q ys xs hq (x+1) y (by omega) (by omega) hdim
  have p11 := posAt_indexOf dim q ys xs hq (x+1) (y+1) (by omega) (by omega) hdim
  intro t ht
  fin_cases hq <;>
    norm_num [cellTriangles] at ht <;>
    rcases ht with rfl | rfl <;>
      simp [signedDoubleArea, p00, p01, p10, p11]

end GridMesh

/-! ## C3 -/

/-- **C3.** For every even `GLubyte` dimension and every quadrant, every
triangle emitted into the index buffer by `GridMesh::setupPositions` has
the same orientation once the per-quadrant `(xsign, ysign)` flip stored
in the vertex positions is taken into account: twice the signed area of
every emitted triangle, computed from the actual stored positions, is
exactly `-1` — one consistent sign across all four quadrants. -/
theorem gridMesh_winding_consistent (dim : Nat) (_heven : dim % 2 = 0) (hdim : dim < 256) :
    ∀ t ∈ GridMesh.gridTriangles dim,
      GridMesh.signedDoubleArea (GridMesh.posAt dim t.1) (GridMesh.posAt dim t.2.1)
        (GridMesh.posAt dim t.2.2) = -1 := by
  intro t ht
  rw [GridMesh.gridTriangles, List.mem_flatMap] at ht
  obtain ⟨s, hs, ht⟩ := ht
  obtain ⟨q, ys, xs⟩ := s
  rw [GridMesh.quadTriangles, List.mem_flatMap] at ht
  obtain ⟨y, hy, ht⟩ := ht
  rw [List.mem_flatMap] at ht
  obtain ⟨x, hx, ht⟩ := ht
  rw [List.mem_range] at hy hx
  exact GridMesh.cellTriangles_area dim q ys xs hs x y (by omega) (by omega) hdim t ht

/-- **C3 witness.** The theorem applied at `dim = 4` to the first emitted
triangle `(0, 3, 1)` of quadrant 0. -/
theorem gridMesh_winding_consistent_witness :
    GridMesh.signedDoubleArea (GridMesh.posAt 4 0) (GridMesh.posAt 4 3)
      (GridMesh.posAt 4 1) = -1 :=
  gridMesh_winding_consistent 4 (by decide) (by decide) (0, 3, 1) (by decide)

/-! ## C6 -/

/-- **C6.** For every even dimension with `4*(dim/2+1)^2 ≤ 65536`, every
index value emitted by `GridMesh::setupPositions` for quadrant `q` lies
within that quadrant's own vertex block
`[q*(dim/2+1)^2, (q+1)*(dim/2+1)^2)` — quadrants never reference each
other's (duplicated, unmerged) edge vertices — and no index reaches the
vertex buffer's size `4*(dim/2+1)^2` or the 16-bit index limit. -/
theorem gridMesh_indices_stay_in_quadrant_block (dim : Nat) (_heven : dim % 2 = 0)
    (h16 : 4 * (dim / 2 + 1) ^ 2 ≤ 65536) :
    ∀ q : Nat, ∀ ys xs : Int, (q, ys, xs) ∈ GridMesh.subquadSigns →
      ∀ i ∈ GridMesh.quadIndices dim q ys xs,
        q * (dim / 2 + 1) ^ 2 ≤ i ∧ i < (q + 1) * (dim / 2 + 1) ^ 2 ∧
          i < 4 * (dim / 2 + 1) ^ 2 ∧ i < 65536 := by
  intro q ys xs hq i hi
  have hVpow : (dim / 2 + 1) ^ 2 = GridMesh.subQuadVertexCnt dim := by
    rw [GridMesh.subQuadVertexCnt, GridMesh.dim2]; ring
  rw [hVpow] at h16 ⊢
  rw [GridMesh.quadIndices, List.mem_flatMap] at hi
  obtain ⟨y, hy, hi⟩ := hi
  rw [List.mem_flatMap] at hi
  obtain ⟨x, hx, hi⟩ := hi
  rw [List.mem_range] at hy hx
  have hq3 : q ≤ 3 := by fin_cases hq <;> decide
  have hbounds : ∀ a b : Nat, a ≤ GridMesh.dim2 dim → b ≤ GridMesh.dim2 dim →
      q * GridMesh.subQuadVertexCnt dim ≤ GridMesh.indexOf dim q a b ∧
        GridMesh.indexOf dim q a b < (q + 1) * GridMesh.subQuadVertexCnt dim ∧
        GridMesh.indexOf dim q a b < 4 * GridMesh.subQuadVertexCnt dim ∧
        GridMesh.indexOf dim q a b < 65536 := by
    intro a b ha hb
    obtain ⟨h1, h2, _⟩ := GridMesh.indexOf_block_bounds dim q a b hq3 ha hb h16
    have hmul : (q + 1) * GridMesh.subQuadVertexCnt dim
        ≤ 4 * GridMesh.subQuadVertexCnt dim := Nat.mul_le_mul_right _ (by omega)
    exact ⟨h1, h2, by omega, by omega⟩
  rw [GridMesh.cellIndices] at hi
  split at hi <;>
    simp only [List.mem_cons, List.not_mem_nil, or_false] at hi <;>
    rcases hi with rfl | rfl | rfl | rfl | rfl | rfl <;>
    exact hbounds _ _ (by omega) (by omega)

/-- **C6 witness.** The theorem applied at `dim = 4`, quadrant 1, to the
first index emitted for cell `(0,0)` of that quadrant. -/
theorem gridMesh_indices_stay_in_quadrant_block_witness :
    1 * (4 / 2 + 1) ^ 2 ≤ GridMesh.indexOf 4 1 0 0 ∧
      GridMesh.indexOf 4 1 0 0 < (1 + 1) * (4 / 2 + 1) ^ 2 ∧
      GridMesh.indexOf 4 1 0 0 < 4 * (4 / 2 + 1) ^ 2 ∧ GridMesh.indexOf 4 1 0 0 < 65536 :=
  gridMesh_indices_stay_in_quadrant_block 4 (by decide) (by decide) 1 (-1) 1 (by decide)
    (GridMesh.indexOf 4 1 0 0) (by decide)

/-! ## C7 -/

/-- **C7.** `Shadow::push()` is a bounded-capacity operation signalling
overflow by throwing: when `curr_depth_ + 1 < max_depth_` it increments
`curr_depth_` by exactly 1 and binds the next framebuffer; otherwise it
throws `std::overflow_error` and the object — `curr_depth_` and the
matrix array included — is unchanged. -/
theorem shadow_push_bounded_capacity {M : Type} (s : ShadowM.ShadowState M) :
    (s.curr_depth + 1 < s.max_depth →
      ShadowM.pushShadow s = Except.ok
        { s with curr_depth := s.curr_depth + 1,
                 bound_fbo := some (s.curr_depth + 1) }) ∧
    (¬ s.curr_depth + 1 < s.max_depth →
      ShadowM.pushShadow s = Except.error "ShadowMap stack overflow." ∧
        ShadowM.afterPush s = s) := by
  constructor <;> intro h <;>
    simp [ShadowM.pushShadow, ShadowM.afterPush, h]

/-- **C7 witness.** A two-cascade shadow state: a push from depth 0
succeeds and increments the depth; a push from depth 1 throws and leaves
the state unchanged. -/
theorem shadow_push_bounded_capacity_witness :
    ShadowM.pushShadow (⟨[0, 0], 512, 0, 2, none⟩ : ShadowM.ShadowState Nat)
        = Except.ok ⟨[0, 0], 512, 1, 2, some 1⟩ ∧
      ShadowM.pushShadow (⟨[0, 0], 512, 1, 2, some 1⟩ : ShadowM.ShadowState Nat)
          = Except.error "ShadowMap stack overflow." ∧
        ShadowM.afterPush (⟨[0, 0], 512, 1, 2, some 1⟩ : ShadowM.ShadowState Nat)
          = ⟨[0, 0], 512, 1, 2, some 1⟩ :=
  ⟨(shadow_push_bounded_capacity _).1 (by decide),
   (shadow_push_bounded_capacity _).2 (by decide)⟩

/-! ## C9 -/

/-- **C9.** For every `Shadow` constructed with `depth ≥ 1`, the
invariant `curr_depth_ < max_depth_` (with the matrix array of size
`max_depth_`) holds after construction and is preserved by `begin()` and
by `push()` whether it succeeds or throws; hence `getDepth()` is a valid
bound into `cp_matrices_`, keeping the `shadowCPs()[i]` loop of
`Terrain::render` in bounds. -/
theorem shadow_depth_invariant (M : Type) (m0 : M) (size depth : Nat) (hd : 1 ≤ depth) :
    ShadowM.ShadowInv (ShadowM.mkShadow M size depth m0) ∧
      ∀ s : ShadowM.ShadowState M, ShadowM.ShadowInv s →
        ShadowM.ShadowInv (ShadowM.beginShadow s) ∧
          ShadowM.ShadowInv (ShadowM.afterPush s) ∧
          ∀ i, i < ShadowM.getDepth s → i < (ShadowM.shadowCPs s).length := by
  constructor
  · exact ⟨by simpa [ShadowM.mkShadow] using hd, by simp [ShadowM.mkShadow]⟩
  · intro s hs
    obtain ⟨h1, h2⟩ := hs
    refine ⟨⟨by simpa [ShadowM.beginShadow] using by omega, by simpa [ShadowM.beginShadow] using h2⟩, ?_, ?_⟩
    · by_cases hc : s.curr_depth + 1 < s.max_depth
      · constructor <;>
          simp [ShadowM.afterPush, ShadowM.pushShadow, hc, h2]
      · constructor <;>
          simp [ShadowM.afterPush, ShadowM.pushShadow, hc, h1, h2]
    · intro i hi
      rw [ShadowM.getDepth] at hi
      rw [ShadowM.shadowCPs]
      omega

/-- **C9 witness.** The theorem applied to a freshly constructed
two-cascade shadow. -/
theorem shadow_depth_invariant_witness :
    ShadowM.ShadowInv (ShadowM.mkShadow Nat 512 2 0) ∧
      ∀ s : ShadowM.ShadowState Nat, ShadowM.ShadowInv s →
        ShadowM.ShadowInv (ShadowM.beginShadow s) ∧
          ShadowM.ShadowInv (ShadowM.afterPush s) ∧
          ∀ i, i < ShadowM.getDepth s → i < (ShadowM.shadowCPs s).length :=
  shadow_depth_invariant Nat 0 512 2 (by decide)

/-! ## C4 -/

namespace HeightMapQ

theorem areaSamples_subset (hm : HeightMapData) (xA yA wA hA xB yB wB hB : Int)
    (hx1 : xA - Int.tdiv wA 2 ≤ xB - Int.tdiv wB 2)
    (hx2 : xB + Int.tdiv wB 2 ≤ xA + Int.tdiv wA 2)
    (hy1 : yA - Int.tdiv hA 2 ≤ yB - Int.tdiv hB 2)
    (hy2 : yB + Int.tdiv hB 2 ≤ yA + Int.tdiv hA 2) :
    areaSamples hm xB yB wB hB ⊆ areaSamples hm xA yA wA hA := by
  intro p hp
  rw [areaSamples, Finset.mem_filter, Finset.mem_product, Finset.mem_Icc, Finset.mem_Icc] at hp
  rw [areaSamples, Finset.mem_filter, Finset.mem_product, Finset.mem_Icc, Finset.mem_Icc]
  obtain ⟨⟨⟨hpa, hpb⟩, hpc, hpd⟩, hval⟩ := hp
  exact ⟨⟨⟨by omega, by omega⟩, by omega, by omega⟩, hval⟩

end HeightMapQ

/-- **C4 counterexample.** The claim as stated is false: on a 1×1 height
map of constant height 5, rectangle `A` = centered at (5,5) with extents
10 (covering `[0,10]×[0,10]`, which contains the only valid sample)
contains rectangle `B` = the single point (10,10) (no valid sample, so
the `(0,0)` sentinel is returned), yet `min(A) = 5 > 0 = min(B)`. -/
theorem getMinMaxOfArea_monotone_counterexample :
    (5 - Int.tdiv 10 2 ≤ 10 - Int.tdiv 0 2 ∧ 10 + Int.tdiv 0 2 ≤ 5 + Int.tdiv 10 2 ∧
      5 - Int.tdiv 10 2 ≤ 10 - Int.tdiv 0 2 ∧ 10 + Int.tdiv 0 2 ≤ 5 + Int.tdiv 10 2) ∧
    ¬ ((HeightMapQ.getMinMaxOfArea ⟨1, 1, fun _ _ => 5⟩ 5 5 10 10).1
        ≤ (HeightMapQ.getMinMaxOfArea ⟨1, 1, fun _ _ => 5⟩ 10 10 0 0).1) := by
  constructor
  · decide
  · decide

/-- **C4 (amended).** The area min/max query is monotone with respect to
rectangle inclusion *provided the inner rectangle contains at least one
valid sample*: if rectangle `A` contains rectangle `B` and `B` has a
valid sample, then `min(A) ≤ min(B)` and `max(A) ≥ max(B)`; hence a
quadtree node's vertical extent contains each child's vertical extent
whenever the child's footprint meets the height map. -/
theorem getMinMaxOfArea_monotone_of_nonempty (hm : HeightMapQ.HeightMapData)
    (xA yA wA hA xB yB wB hB : Int)
    (hx1 : xA - Int.tdiv wA 2 ≤ xB - Int.tdiv wB 2)
    (hx2 : xB + Int.tdiv wB 2 ≤ xA + Int.tdiv wA 2)
    (hy1 : yA - Int.tdiv hA 2 ≤ yB - Int.tdiv hB 2)
    (hy2 : yB + Int.tdiv hB 2 ≤ yA + Int.tdiv hA 2)
    (hne : (HeightMapQ.areaSamples hm xB yB wB hB).Nonempty) :
    (HeightMapQ.getMinMaxOfArea hm xA yA wA hA).1
        ≤ (HeightMapQ.getMinMaxOfArea hm xB yB wB hB).1 ∧
      (HeightMapQ.getMinMaxOfArea hm xB yB wB hB).2
        ≤ (HeightMapQ.getMinMaxOfArea hm xA yA wA hA).2 := by
  have hsub : HeightMapQ.areaSamples hm xB yB wB hB ⊆ HeightMapQ.areaSamples hm xA yA wA hA :=
    HeightMapQ.areaSamples_subset hm xA yA wA hA xB yB wB hB hx1 hx2 hy1 hy2
  have hneA : (HeightMapQ.areaSamples hm xA yA wA hA).Nonempty := hne.mono hsub
  rw [HeightMapQ.getMinMaxOfArea, HeightMapQ.getMinMaxOfArea, dif_pos hne, dif_pos hneA]
  exact ⟨Finset.inf'_mono _ hsub hne, Finset.sup'_mono _ hsub hne⟩

/-- **C4 witness.** The amended theorem applied with `A = B` = the single
valid sample of a 1×1 constant-height map. -/
theorem getMinMaxOfArea_monotone_of_nonempty_witness :
    (HeightMapQ.getMinMaxOfArea ⟨1, 1, fun _ _ => 5⟩ 0 0 0 0).1
        ≤ (HeightMapQ.getMinMaxOfArea ⟨1, 1, fun _ _ => 5⟩ 0 0 0 0).1 ∧
      (HeightMapQ.getMinMaxOfArea ⟨1, 1, fun _ _ => 5⟩ 0 0 0 0).2
        ≤ (HeightMapQ.getMinMaxOfArea ⟨1, 1, fun _ _ => 5⟩ 0 0 0 0).2 :=
  getMinMaxOfArea_monotone_of_nonempty ⟨1, 1, fun _ _ => 5⟩ 0 0 0 0 0 0 0 0
    (by decide) (by decide) (by decide) (by decide) (by decide)

/-! ## Bind-state trace lemmas -/

namespace RenderTrace

theorem applyEvents_nil (s : BindState) : applyEvents s [] = s := rfl

theorem applyEvents_cons (s : BindState) (e : GLEvent) (t : List GLEvent) :
    applyEvents s (e :: t) = applyEvents (applyEvent s e) t := rfl

theorem applyEvents_append (s : BindState) (l1 l2 : List GLEvent) :
    applyEvents s (l1 ++ l2) = applyEvents (applyEvents s l1) l2 := by
  simp [applyEvents]

theorem units_applyEvent_noTex (s : BindState) (e : GLEvent) (he : noTexEvent e) (u : Nat) :
    (applyEvent s e).units u = s.units u := by
  cases e <;> first
    | rfl
    | exact absurd he (by simp [noTexEvent])

theorem units_applyEvents_noTex (l : List GLEvent) (h : ∀ e ∈ l, noTexEvent e)
    (s : BindState) (u : Nat) : (applyEvents s l).units u = s.units u := by
  induction l generalizing s with
  | nil => rfl
  | cons e t ih =>
    rw [applyEvents_cons, ih (fun x hx => h x (by simp [hx])),
      units_applyEvent_noTex s e (h e (by simp))]

theorem mesh_events_noTex (patterns : List (Bool × Bool × Bool × Bool)) :
    ∀ e ∈ terrainMeshRenderEvents patterns, noTexEvent e := by
  intro e he
  rw [terrainMeshRenderEvents, List.mem_flatMap] at he
  obtain ⟨p, _, he⟩ := he
  rw [gridMeshRenderEvents] at he
  simp only [List.mem_append, List.mem_map, List.mem_singleton, List.mem_cons,
    List.not_mem_nil, or_false] at he
  rcases he with (rfl | ⟨c, hc, rfl⟩) | rfl <;> trivial

theorem units_applyEvents_shadowUniforms (d : Nat) (s : BindState) :
    applyEvents s ((List.range d).map fun i => GLEvent.setUniform (UniformTag.uShadowCP i)) = s := by
  induction d generalizing s with
  | zero => rfl
  | succ n ih =>
    rw [List.range_succ, List.map_append, applyEvents_append, ih]
    rfl

end RenderTrace

/-! ## C8 -/

/-- **C8.** The render pass restores the bind state it touches: after
`Terrain::render`, texture units 2, 3 and 4 are unbound, unit 5 is
unbound whenever a shadow collaborator exists (and untouched otherwise),
and `GridMesh::render` always leaves the vertex array object unbound. -/
theorem terrain_render_restores_bind_state (sd : Option Nat)
    (patterns : List (Bool × Bool × Bool × Bool)) (s0 : RenderTrace.BindState) :
    (RenderTrace.applyEvents s0 (RenderTrace.terrainRenderEvents sd patterns)).units 2 = false ∧
    (RenderTrace.applyEvents s0 (RenderTrace.terrainRenderEvents sd patterns)).units 3 = false ∧
    (RenderTrace.applyEvents s0 (RenderTrace.terrainRenderEvents sd patterns)).units 4 = false ∧
    (RenderTrace.applyEvents s0 (RenderTrace.terrainRenderEvents sd patterns)).units 5
        = (if sd.isSome then false else s0.units 5) ∧
    (∀ tl tr bl br : Bool, ∀ s : RenderTrace.BindState,
      (RenderTrace.applyEvents s (RenderTrace.gridMeshRenderEvents tl tr bl br)).vaoBound
        = false) := by
  have hmesh := RenderTrace.units_applyEvents_noTex _ (RenderTrace.mesh_events_noTex patterns)
  have hvao : ∀ tl tr bl br : Bool, ∀ s : RenderTrace.BindState,
      (RenderTrace.applyEvents s (RenderTrace.gridMeshRenderEvents tl tr bl br)).vaoBound
        = false := by
    intro tl tr bl br s
    rw [RenderTrace.gridMeshRenderEvents, RenderTrace.applyEvents_append,
      RenderTrace.applyEvents_cons, RenderTrace.applyEvents_nil]
    rfl
  cases sd with
  | none =>
    refine ⟨?_, ?_, ?_, ?_, hvao⟩ <;>
      simp [RenderTrace.terrainRenderEvents, RenderTrace.applyEvents_append,
        RenderTrace.applyEvents_cons, RenderTrace.applyEvents_nil, RenderTrace.applyEvent,
        hmesh]
  | some d =>
    refine ⟨?_, ?_, ?_, ?_, hvao⟩ <;>
      simp [RenderTrace.terrainRenderEvents, RenderTrace.applyEvents_append,
        RenderTrace.applyEvents_cons, RenderTrace.applyEvents_nil, RenderTrace.applyEvent,
        hmesh, RenderTrace.units_applyEvents_shadowUniforms]

/-! ## C10 -/

/-- **C10.** `Terrain::render` tolerates an absent shadow collaborator:
with a null shadow pointer the trace still uses the program, sets the
three matrix uniforms, binds the grass and normal textures and renders
the mesh, while writing no shadow uniform and never touching texture
unit 5 — every shadow dereference is guarded. -/
theorem terrain_render_null_shadow (patterns : List (Bool × Bool × Bool × Bool)) :
    RenderTrace.terrainRenderEvents none patterns
        = [RenderTrace.GLEvent.useProgram,
           RenderTrace.GLEvent.setUniform RenderTrace.UniformTag.uCameraMatrix,
           RenderTrace.GLEvent.setUniform RenderTrace.UniformTag.uProjectionMatrix,
           RenderTrace.GLEvent.setUniform RenderTrace.UniformTag.uModelMatrix,
           RenderTrace.GLEvent.bindTexture 2, RenderTrace.GLEvent.bindTexture 3,
           RenderTrace.GLEvent.bindTexture 4]
          ++ RenderTrace.terrainMeshRenderEvents patterns
          ++ [RenderTrace.GLEvent.unbindTexture 4, RenderTrace.GLEvent.unbindTexture 3,
              RenderTrace.GLEvent.unbindTexture 2] ∧
      ∀ e ∈ RenderTrace.terrainRenderEvents none patterns,
        (∀ i : Nat, e ≠ RenderTrace.GLEvent.setUniform (RenderTrace.UniformTag.uShadowCP i)) ∧
          e ≠ RenderTrace.GLEvent.setUniform RenderTrace.UniformTag.uNumUsedShadowMaps ∧
          e ≠ RenderTrace.GLEvent.setUniform RenderTrace.UniformTag.uShadowAtlasSize ∧
          e ≠ RenderTrace.GLEvent.bindTexture 5 ∧
          e ≠ RenderTrace.GLEvent.unbindTexture 5 := by
  have htrace : RenderTrace.terrainRenderEvents none patterns
      = [RenderTrace.GLEvent.useProgram,
         RenderTrace.GLEvent.setUniform RenderTrace.UniformTag.uCameraMatrix,
         RenderTrace.GLEvent.setUniform RenderTrace.UniformTag.uProjectionMatrix,
         RenderTrace.GLEvent.setUniform RenderTrace.UniformTag.uModelMatrix,
         RenderTrace.GLEvent.bindTexture 2, RenderTrace.GLEvent.bindTexture 3,
         RenderTrace.GLEvent.bindTexture 4]
        ++ RenderTrace.terrainMeshRenderEvents patterns
        ++ [RenderTrace.GLEvent.unbindTexture 4, RenderTrace.GLEvent.unbindTexture 3,
            RenderTrace.GLEvent.unbindTexture 2] := by
    simp [RenderTrace.terrainRenderEvents]
  have hmeshP : ∀ x ∈ RenderTrace.terrainMeshRenderEvents patterns,
      (∀ i : Nat, x ≠ RenderTrace.GLEvent.setUniform (RenderTrace.UniformTag.uShadowCP i)) ∧
        x ≠ RenderTrace.GLEvent.setUniform RenderTrace.UniformTag.uNumUsedShadowMaps ∧
        x ≠ RenderTrace.GLEvent.setUniform RenderTrace.UniformTag.uShadowAtlasSize ∧
        x ≠ RenderTrace.GLEvent.bindTexture 5 ∧
        x ≠ RenderTrace.GLEvent.unbindTexture 5 := by
    intro x hx
    rw [RenderTrace.terrainMeshRenderEvents, List.mem_flatMap] at hx
    obtain ⟨p, _, hx⟩ := hx
    rw [RenderTrace.gridMeshRenderEvents] at hx
    simp only [List.mem_append, List.mem_map, List.mem_singleton, List.mem_cons,
      List.not_mem_nil, or_false] at hx
    rcases hx with (rfl | ⟨c, hc, rfl⟩) | rfl <;>
      (refine ⟨fun i => ?_, ?_, ?_, ?_, ?_⟩ <;> simp)
  refine ⟨htrace, ?_⟩
  intro e he
  rw [htrace] at he
  simp only [List.mem_append, List.mem_cons, List.not_mem_nil, or_false] at he
  rcases he with ((rfl | rfl | rfl | rfl | rfl | rfl | rfl) | hmesh) | (rfl | rfl | rfl)
  all_goals first
    | exact hmeshP _ hmesh
    | (refine ⟨fun i => ?_, ?_, ?_, ?_, ?_⟩ <;> simp)

/-- **C10 witness.** The theorem applied to a one-node frame, read at the
`useProgram` event of its trace. -/
theorem terrain_render_null_shadow_witness :
    (∀ i : Nat, RenderTrace.GLEvent.useProgram
        ≠ RenderTrace.GLEvent.setUniform (RenderTrace.UniformTag.uShadowCP i)) ∧
      RenderTrace.GLEvent.useProgram
          ≠ RenderTrace.GLEvent.setUniform RenderTrace.UniformTag.uNumUsedShadowMaps ∧
        RenderTrace.GLEvent.useProgram
            ≠ RenderTrace.GLEvent.setUniform RenderTrace.UniformTag.uShadowAtlasSize ∧
          RenderTrace.GLEvent.useProgram ≠ RenderTrace.GLEvent.bindTexture 5 ∧
            RenderTrace.GLEvent.useProgram ≠ RenderTrace.GLEvent.unbindTexture 5 :=
  (terrain_render_null_shadow [(true, true, true, true)]).2
    RenderTrace.GLEvent.useProgram (by decide)

/-! ## Bilinear interpolation lemmas -/

namespace HeightMapR

theorem heightAtD_eq_mixRow (t : ℤ → ℤ → ℝ) (x y : ℝ) :
    heightAtD t x y = mixRow (fun k => mixRow (fun j => t j k) x) y := rfl

theorem mixRow_localR (a : ℝ) :
    ∃ n : ℤ, ∃ U : Set ℝ, a ∈ U ∧ U ∈ nhdsWithin a (Set.Ici a) ∧
      ∀ x ∈ U, ∀ r : ℤ → ℝ, mixRow r x = mix (r n) (r (n + 1)) (x - (n : ℝ)) := by
  refine ⟨⌊a⌋, Set.Ico ((⌊a⌋ : ℝ)) ((⌊a⌋ : ℝ) + 1),
    ⟨Int.floor_le a, Int.lt_floor_add_one a⟩,
    Ico_mem_nhdsWithin_Ici ⟨Int.floor_le a, Int.lt_floor_add_one a⟩, ?_⟩
  rintro x ⟨h1, h2⟩ r
  rcases eq_or_lt_of_le h1 with heq | hlt
  · rw [← heq]
    simp only [mixRow, mix, Int.floor_intCast, Int.ceil_intCast, sub_self]
    ring
  · have hfl : ⌊x⌋ = ⌊a⌋ := by
      rw [Int.floor_eq_iff]
      constructor
      · exact le_of_lt hlt
      · exact_mod_cast h2
    have hcl : ⌈x⌉ = ⌊a⌋ + 1 := by
      rw [Int.ceil_eq_iff]
      constructor <;> push_cast <;> linarith
    rw [mixRow, hfl, hcl]

theorem mixRow_localL (a : ℝ) :
    ∃ n : ℤ, ∃ U : Set ℝ, a ∈ U ∧ U ∈ nhdsWithin a (Set.Iic a) ∧
      ∀ x ∈ U, ∀ r : ℤ → ℝ, mixRow r x = mix (r n) (r (n + 1)) (x - (n : ℝ)) := by
  refine ⟨⌈a⌉ - 1, Set.Ioc ((⌈a⌉ : ℝ) - 1) ((⌈a⌉ : ℝ)),
    ⟨by linarith [Int.ceil_lt_add_one a], Int.le_ceil a⟩,
    Ioc_mem_nhdsWithin_Iic ⟨by linarith [Int.ceil_lt_add_one a], Int.le_ceil a⟩, ?_⟩
  rintro x ⟨h1, h2⟩ r
  rcases eq_or_lt_of_le h2 with heq | hlt
  · subst heq
    simp only [mixRow, mix, Int.floor_intCast, Int.ceil_intCast]
    push_cast
    ring
  · have hfl : ⌊x⌋ = ⌈a⌉ - 1 := by
      rw [Int.floor_eq_iff]
      constructor <;> push_cast <;> linarith
    have hcl : ⌈x⌉ = ⌈a⌉ := by
      rw [Int.ceil_eq_iff]
      constructor <;> push_cast <;> linarith
    rw [mixRow, hfl, hcl]
    push_cast
    ring_nf

theorem quadrant_cwa (t : ℤ → ℤ → ℝ) (a b : ℝ) (Sx Sy : Set ℝ)
    (hx : ∃ n : ℤ, ∃ U : Set ℝ, a ∈ U ∧ U ∈ nhdsWithin a Sx ∧
      ∀ x ∈ U, ∀ r : ℤ → ℝ, mixRow r x = mix (r n) (r (n + 1)) (x - (n : ℝ)))
    (hy : ∃ m : ℤ, ∃ V : Set ℝ, b ∈ V ∧ V ∈ nhdsWithin b Sy ∧
      ∀ y ∈ V, ∀ r : ℤ → ℝ, mixRow r y = mix (r m) (r (m + 1)) (y - (m : ℝ))) :
    ContinuousWithinAt (fun p : ℝ × ℝ => heightAtD t p.1 p.2) (Sx ×ˢ Sy) (a, b) := by
  obtain ⟨nx, U, haU, hUm, hU⟩ := hx
  obtain ⟨ny, V, hbV, hVm, hV⟩ := hy
  have hprod : U ×ˢ V ∈ nhdsWithin (a, b) (Sx ×ˢ Sy) := by
    rw [nhdsWithin_prod_eq]
    exact Filter.prod_mem_prod hUm hVm
  have heq : ∀ p ∈ U ×ˢ V, heightAtD t p.1 p.2
      = mix (mix (t nx ny) (t (nx + 1) ny) (p.1 - (nx : ℝ)))
            (mix (t nx (ny + 1)) (t (nx + 1) (ny + 1)) (p.1 - (nx : ℝ)))
            (p.2 - (ny : ℝ)) := by
    rintro p ⟨hpU, hpV⟩
    rw [heightAtD_eq_mixRow, hV p.2 hpV, hU p.1 hpU, hU p.1 hpU]
  have hcont : Continuous (fun p : ℝ × ℝ =>
      mix (mix (t nx ny) (t (nx + 1) ny) (p.1 - (nx : ℝ)))
          (mix (t nx (ny + 1)) (t (nx + 1) (ny + 1)) (p.1 - (nx : ℝ)))
          (p.2 - (ny : ℝ))) := by
    unfold mix
    fun_prop
  exact hcont.continuousWithinAt.congr_of_eventuallyEq
    (Filter.eventuallyEq_of_mem hprod heq) (heq (a, b) ⟨haU, hbV⟩)

end HeightMapR

/-! ## C5 -/

/-- **C5.** `HeightMap::heightAt(double, double)` (doubles modelled as
reals) computes standard bilinear interpolation of the four surrounding
texels: it is jointly continuous in `(x, y)` — in particular there is no
discontinuity when a coordinate crosses an integer — and at integer
coordinates it agrees with the nearest-sample fetch `heightAt(int, int)`. -/
theorem heightAt_bilinear_continuous (t : ℤ → ℤ → ℝ) :
    Continuous (fun p : ℝ × ℝ => HeightMapR.heightAtD t p.1 p.2) ∧
      ∀ n m : ℤ, HeightMapR.heightAtD t ((n : ℝ)) ((m : ℝ)) = HeightMapR.heightAtI t n m := by
  constructor
  · rw [continuous_iff_continuousAt]
    rintro ⟨a, b⟩
    have k1 := HeightMapR.quadrant_cwa t a b (Set.Iic a) (Set.Iic b)
      (HeightMapR.mixRow_localL a) (HeightMapR.mixRow_localL b)
    have k2 := HeightMapR.quadrant_cwa t a b (Set.Iic a) (Set.Ici b)
      (HeightMapR.mixRow_localL a) (HeightMapR.mixRow_localR b)
    have k3 := HeightMapR.quadrant_cwa t a b (Set.Ici a) (Set.Iic b)
      (HeightMapR.mixRow_localR a) (HeightMapR.mixRow_localL b)
    have k4 := HeightMapR.quadrant_cwa t a b (Set.Ici a) (Set.Ici b)
      (HeightMapR.mixRow_localR a) (HeightMapR.mixRow_localR b)
    have hcover : (Set.Iic a ×ˢ Set.Iic b) ∪ (Set.Iic a ×ˢ Set.Ici b)
        ∪ (Set.Ici a ×ˢ Set.Iic b) ∪ (Set.Ici a ×ˢ Set.Ici b) = Set.univ := by
      ext ⟨u, v⟩
      simp only [Set.mem_union, Set.mem_prod, Set.mem_Iic, Set.mem_Ici, Set.mem_univ, iff_true]
      rcases le_total u a with h | h <;> rcases le_total v b with h2 | h2 <;> tauto
    have hall : ContinuousWithinAt (fun p : ℝ × ℝ => HeightMapR.heightAtD t p.1 p.2)
        Set.univ (a, b) := by
      rw [← hcover]
      exact ((k1.union k2).union k3).union k4
    exact (continuousWithinAt_univ _ _).mp hall
  · intro n m
    simp only [HeightMapR.heightAtD, HeightMapR.heightAtI, HeightMapR.mix,
      Int.floor_intCast, Int.ceil_intCast, sub_self]
    ring

/-! ## The triangle list is the index buffer, grouped in threes -/

namespace GridMesh

theorem cellIndices_eq_cellTriangles (dim sub_quad : Nat) (ysign xsign : Int) (x y : Nat) :
    cellIndices dim sub_quad ysign xsign x y
      = (cellTriangles dim sub_quad ysign xsign x y).flatMap fun t => [t.1, t.2.1, t.2.2] := by
  unfold cellIndices cellTriangles
  split <;> rfl

theorem gridIndices_eq_gridTriangles (dim : Nat) :
    gridIndices dim = (gridTriangles dim).flatMap fun t => [t.1, t.2.1, t.2.2] := by
  unfold gridIndices gridTriangles quadIndices quadTriangles
  simp [List.flatMap_assoc, cellIndices_eq_cellTriangles]

end GridMesh
